import Mathlib

/-!
Verification of the pairly matchmaking / economy core.

This file gives a shallow embedding of the database-backed operations of the
repository (the sunflower ledger in `src/db/sunflowers.py`, the user state
machine in `src/db/users.py`, and the waiting-pool / matchmaking operations in
`src/db/matchmaking.py`) and proves, or refutes, the specified properties of
those operations.

Modelling conventions:
* each SQL table is a `List` of row structures, in insertion (rowid) order;
* `CURRENT_TIMESTAMP` / `datetime.now()` is an explicit `now : Int` argument;
* `SUM(amount) ... GROUP BY source` is a fold over the filtered rows;
* SQLite autoincrement row ids are modelled by an explicit counter that starts
  at 1 (SQLite rowids start at 1);
* the embedding models the non-exceptional path of each transaction: every
  claim refers to the effects the function commits, and the Python code only
  rolls back when the database driver raises.
-/

namespace Pairly

/-! ## Ledger (src/db/sunflowers.py)

Sources are the fixed set used by the module ("Sources: streak, game, gift,
rating"). The ledger table `sunflower_ledger(user_id, source, amount)` is
append-only. -/

inductive Source where
  | streak
  | game
  | gift
  | rating
deriving DecidableEq, Repr

structure SunEntry where
  user_id : Int
  source : Source
  amount : Int
deriving DecidableEq, Repr

abbrev SunLedger := List SunEntry

/-- Embeds `add_sunflowers(user_id, amount, source)`: returns without writing
when `amount <= 0`, otherwise inserts one row `(user_id, source, amount)`. -/
def add_sunflowers (l : SunLedger) (u : Int) (amount : Int) (s : Source) : SunLedger :=
  if amount ≤ 0 then l else l ++ [⟨u, s, amount⟩]

/-- Embeds `remove_sunflowers(user_id, amount, source)`: returns 0 without
writing when `amount <= 0`, otherwise inserts one row `(user_id, source,
-amount)` and returns `amount`. -/
def remove_sunflowers (l : SunLedger) (u : Int) (amount : Int) (s : Source) : SunLedger × Int :=
  if amount ≤ 0 then (l, 0) else (l ++ [⟨u, s, -amount⟩], amount)

/-- Raw signed sum of a user's entries for one source: the SQL
`SELECT SUM(amount) ... WHERE user_id = ? GROUP BY source` value (0 when the
group is empty). -/
def sourceRaw (l : SunLedger) (u : Int) (s : Source) : Int :=
  ((l.filter (fun e => decide (e.user_id = u ∧ e.source = s))).map (fun e => e.amount)).sum

/-- Reported per-source balance of `get_sunflower_balance`: the raw sum floored
at zero (`balance[source] = max(0, amount)`). -/
def sourceBalance (l : SunLedger) (u : Int) (s : Source) : Int :=
  max 0 (sourceRaw l u s)

/-- Reported `balance['total']` of `get_sunflower_balance`: the sum of the four
floored per-source balances. -/
def totalBalance (l : SunLedger) (u : Int) : Int :=
  sourceBalance l u .streak + sourceBalance l u .game +
    sourceBalance l u .gift + sourceBalance l u .rating

/-- Embeds `deduct_sunflowers_smart(user_id, amount)`. The balance snapshot is
taken once up front (as in the Python, which reads `get_sunflower_balance`
once); the four deduction steps then append to the evolving ledger. Returns
the new ledger and the boolean result. -/
def deduct_sunflowers_smart (l : SunLedger) (u : Int) (amount : Int) : SunLedger × Bool :=
  if totalBalance l u < amount then (l, false)
  else
    let p1 :=
      if 0 < sourceBalance l u .game then
        let d := min (sourceBalance l u .game) amount
        ((remove_sunflowers l u d .game).1, amount - d)
      else (l, amount)
    let p2 :=
      if 0 < p1.2 ∧ 0 < sourceBalance l u .gift then
        let d := min (sourceBalance l u .gift) p1.2
        ((remove_sunflowers p1.1 u d .gift).1, p1.2 - d)
      else p1
    let p3 :=
      if 0 < p2.2 ∧ 0 < sourceBalance l u .rating then
        let d := min (sourceBalance l u .rating) p2.2
        ((remove_sunflowers p2.1 u d .rating).1, p2.2 - d)
      else p2
    let p4 :=
      if 0 < p3.2 ∧ 0 < sourceBalance l u .streak then
        let d := min (sourceBalance l u .streak) p3.2
        ((remove_sunflowers p3.1 u d .streak).1, p3.2 - d)
      else p3
    (p4.1, true)

/-- Written from the spec's words for the smart-debit policy, to be compared
with `deduct_sunflowers_smart`: "debits sequentially from sources in fixed
priority order game → gift → rating → streak, consuming as much as available
from each before moving to the next, until `amount` is fully covered". Given
the up-front balance snapshot, returns the list of (source, consumed) pairs. -/
def waterfallDeducts (bal : Source → Int) : List Source → Int → List (Source × Int)
  | [], _ => []
  | s :: rest, rem =>
    if 0 < rem ∧ 0 < bal s then
      (s, min (bal s) rem) :: waterfallDeducts bal rest (rem - min (bal s) rem)
    else
      waterfallDeducts bal rest rem

/-- Priority order of the smart debit. -/
def priorityOrder : List Source := [.game, .gift, .rating, .streak]

/-! ## Users and matchmaking (src/db/users.py, src/db/matchmaking.py)

Each table is a list of rows in insertion order. The `users` table carries the
state machine columns used by the claims (`current_state`, `partner_id`,
`last_active`); SQLite REAL rating snapshots are modelled as `Option Rat`
(no claim computes with them). -/

/-- State constants of `class UserState`. -/
def UserState.NEW : String := "NEW"

/-- State constant `AGREED`. -/
def UserState.AGREED : String := "AGREED"

/-- State constant `IDLE`. -/
def UserState.IDLE : String := "IDLE"

/-- State constant `SEARCHING`. -/
def UserState.SEARCHING : String := "SEARCHING"

/-- State constant `CHATTING`. -/
def UserState.CHATTING : String := "CHATTING"

/-- State constant `RATING`. -/
def UserState.RATING : String := "RATING"

structure UserRow where
  user_id : Int
  gender : String
  current_state : String
  partner_id : Option Int
  last_active : Option Int
deriving DecidableEq, Repr

structure WaitingRow where
  user_id : Int
  gender : String
  is_premium : Int
  rating : Option Rat
  rating_count : Int
  gender_preference : Option String
  joined_at : Int
deriving DecidableEq, Repr

structure ChatRow where
  chat_id : Int
  user_a : Int
  user_b : Int
  started_at : Int
deriving DecidableEq, Repr

structure HistoryRow where
  user_id : Int
  partner_id : Int
  last_matched_at : Int
deriving DecidableEq, Repr

structure GameRow where
  chat_id : Int
  winner_id : Option Int
  ended_at : Option Int
deriving DecidableEq, Repr

structure RatingRow where
  rater_id : Int
  rated_user_id : Int
deriving DecidableEq, Repr

structure DB where
  users : List UserRow
  waiting_users : List WaitingRow
  active_chats : List ChatRow
  match_history : List HistoryRow
  active_games : List GameRow
  pending_ratings : List RatingRow
  next_chat_id : Int
deriving DecidableEq, Repr

/-- Embeds `create_user(user_id, gender)`: inserts a `users` row in state `NEW`
(the `partner_id` and `last_active` columns start NULL). -/
def create_user (db : DB) (u : Int) (gender : String) : DB :=
  { db with users := db.users ++ [⟨u, gender, UserState.NEW, none, none⟩] }

/-- Embeds `get_user_state(user_id)`: `fetchone` of the `current_state` column
over rows in stored order. -/
def get_user_state (db : DB) (u : Int) : Option String :=
  (db.users.find? (fun r => decide (r.user_id = u))).map (fun r => r.current_state)

/-- Embeds `transition_state(user_id, from_state, to_state)`: the single
conditional UPDATE `SET current_state = ?, last_active = CURRENT_TIMESTAMP
WHERE user_id = ? AND current_state = ?`, returning `rowcount > 0`. -/
def transition_state (db : DB) (now : Int) (u : Int) (from_state to_state : String) :
    DB × Bool :=
  ({ db with
      users := db.users.map (fun r =>
        if r.user_id = u ∧ r.current_state = from_state then
          { r with current_state := to_state, last_active := some now }
        else r) },
   db.users.any (fun r => decide (r.user_id = u ∧ r.current_state = from_state)))

/-- Embeds `join_waiting_pool`: `INSERT OR REPLACE INTO waiting_users`. The
replacement is keyed on `user_id`; `schema.sql` is not part of the source
snapshot, so the UNIQUE key on `waiting_users.user_id` is modelled from the
spec's persisted-state layout (`waiting_pool(user_id UNIQUE, ...)`). SQLite's
REPLACE deletes the conflicting row and appends the fresh one. -/
def join_waiting_pool (db : DB) (now : Int) (u : Int) (gender : String)
    (is_premium : Bool) (rating : Option Rat) (rating_count : Int)
    (gender_pref : Option String) : DB :=
  { db with
      waiting_users :=
        (db.waiting_users.filter (fun w => decide (w.user_id ≠ u))) ++
          [⟨u, gender, if is_premium then 1 else 0, rating, rating_count, gender_pref, now⟩] }

/-- Embeds `leave_waiting_pool(user_id)`: `DELETE FROM waiting_users WHERE
user_id = ?`. -/
def leave_waiting_pool (db : DB) (u : Int) : DB :=
  { db with waiting_users := db.waiting_users.filter (fun w => decide (w.user_id ≠ u)) }

/-- Embeds `get_waiting_candidates(user_id, my_gender)`: pool rows with
`user_id != ?` and `user_id NOT IN (SELECT partner_id FROM match_history WHERE
user_id = ? AND last_matched_at > cutoff)` where `cutoff = now -
MATCH_HISTORY_WINDOW_SECONDS` (the window is the `settings` constant, passed
here as a parameter; `my_gender` is unused by the query, as in the source). -/
def get_waiting_candidates (db : DB) (now window : Int) (u : Int) (_my_gender : String) :
    List WaitingRow :=
  let cutoff := now - window
  db.waiting_users.filter (fun w =>
    decide (w.user_id ≠ u ∧
      ¬ ∃ h ∈ db.match_history,
          h.user_id = u ∧ h.partner_id = w.user_id ∧ cutoff < h.last_matched_at))

/-- Embeds `create_match_atomic(user_a, user_b)`: one transaction that deletes
both users from the pool, inserts the `active_chats` row (its autoincrement id
is the returned chat id), unconditionally updates both `users` rows to
`partner_id = other, current_state = 'CHATTING'` (two sequential UPDATEs, as
in the source), and writes both `match_history` directions via `INSERT OR
REPLACE` (composite key `(user_id, partner_id)`, modelled from the spec's
layout since `schema.sql` is not in the snapshot). Returns the chat id and the
committed store. -/
def create_match_atomic (db : DB) (now : Int) (a b : Int) : Int × DB :=
  let waiting1 := db.waiting_users.filter (fun w => decide (w.user_id ≠ a ∧ w.user_id ≠ b))
  let chat_id := db.next_chat_id
  let chats1 := db.active_chats ++ [⟨chat_id, a, b, now⟩]
  let users1 := db.users.map (fun r =>
    if r.user_id = a then { r with partner_id := some b, current_state := UserState.CHATTING }
    else r)
  let users2 := users1.map (fun r =>
    if r.user_id = b then { r with partner_id := some a, current_state := UserState.CHATTING }
    else r)
  let hist1 :=
    (db.match_history.filter (fun h => decide (¬ (h.user_id = a ∧ h.partner_id = b)))) ++
      [⟨a, b, now⟩]
  let hist2 :=
    (hist1.filter (fun h => decide (¬ (h.user_id = b ∧ h.partner_id = a)))) ++
      [⟨b, a, now⟩]
  (chat_id,
   { users := users2, waiting_users := waiting1, active_chats := chats1,
     match_history := hist2, active_games := db.active_games,
     pending_ratings := db.pending_ratings, next_chat_id := db.next_chat_id + 1 })

/-- Embeds `end_chat_atomic(user_a, user_b)`: looks up (`fetchone`) an
`active_chats` row for the pair in either order; if found, marks the chat's
winnerless `active_games` rows ended and deletes the chat row. Then — in the
source these two statements are outside the `if chat_row:` block —
unconditionally sets `partner_id = NULL` for both users and inserts the two
`pending_ratings` rows. -/
def end_chat_atomic (db : DB) (now : Int) (a b : Int) : DB :=
  let found := db.active_chats.find? (fun c =>
    decide ((c.user_a = a ∧ c.user_b = b) ∨ (c.user_a = b ∧ c.user_b = a)))
  let db1 :=
    match found with
    | some c =>
      { db with
          active_games := db.active_games.map (fun (g : GameRow) =>
            if g.chat_id = c.chat_id ∧ g.winner_id = none then { g with ended_at := some now }
            else g),
          active_chats := db.active_chats.filter (fun c2 => decide (c2.chat_id ≠ c.chat_id)) }
    | none => db
  { db1 with
      users := db1.users.map (fun (r : UserRow) =>
        if r.user_id = a ∨ r.user_id = b then { r with partner_id := none } else r),
      pending_ratings := db1.pending_ratings ++ ([⟨a, b⟩, ⟨b, a⟩] : List RatingRow) }

/-- Empty store: no rows anywhere, first autoincrement chat id is 1. -/
def DB.empty : DB := ⟨[], [], [], [], [], [], 1⟩

/-- Stores reachable from the empty store through the exposed operations:
user creation, pool join/leave, conditional state transitions, atomic pairing
and atomic teardown. -/
inductive Reachable : DB → Prop where
  | init : Reachable DB.empty
  | createUser (db : DB) (u : Int) (g : String) :
      Reachable db → Reachable (create_user db u g)
  | join (db : DB) (now u : Int) (g : String) (p : Bool) (r : Option Rat) (rc : Int)
      (gp : Option String) :
      Reachable db → Reachable (join_waiting_pool db now u g p r rc gp)
  | leave (db : DB) (u : Int) : Reachable db → Reachable (leave_waiting_pool db u)
  | stateTrans (db : DB) (now u : Int) (f t : String) :
      Reachable db → Reachable (transition_state db now u f t).1
  | createMatch (db : DB) (now a b : Int) :
      Reachable db → Reachable (create_match_atomic db now a b).2
  | endChat (db : DB) (now a b : Int) :
      Reachable db → Reachable (end_chat_atomic db now a b)

/-! ## Auxiliary definitions: scenario stores and invariants -/

/-- Proof scaffolding: the common shape of the three guarded deduction steps
of `deduct_sunflowers_smart` (gift, rating, streak), folded over a source
list. The gift/rating/streak tail of the smart debit is definitionally this
fold. -/
def debitSteps (u : Int) (bal : Source → Int) : List Source → SunLedger × Int → SunLedger × Int
  | [], p => p
  | s :: rest, p =>
    debitSteps u bal rest
      (if 0 < p.2 ∧ 0 < bal s then
        ((remove_sunflowers p.1 u (min (bal s) p.2) s).1, p.2 - min (bal s) p.2)
      else p)

/-- Ledger of the spec's smart-debit scenario: a fresh user credited
`credit(u,'game',10)` then `credit(u,'rating',20)`. -/
def scenarioLedger : SunLedger :=
  add_sunflowers (add_sunflowers [] 1 10 .game) 1 20 .rating

/-- Store of the concurrent-pairing race: user 1 is already CHATTING with
user 3 (open chat 1), while user 2 is still SEARCHING. -/
def raceDB : DB :=
  ⟨[⟨1, "m", UserState.CHATTING, some 3, none⟩, ⟨2, "f", UserState.SEARCHING, none, none⟩],
    [], [⟨1, 1, 3, 0⟩], [], [], [], 2⟩

/-- Fresh two-user store used as a concrete pairing/teardown input. -/
def pairDB : DB :=
  ⟨[⟨1, "m", UserState.SEARCHING, none, none⟩, ⟨2, "f", UserState.SEARCHING, none, none⟩],
    [], [], [], [], [], 1⟩

/-- Store after one full pair-then-teardown cycle plus a second concurrent
match of the same pair: used to exhibit the double-teardown behaviour. -/
def doubleEndDB : DB :=
  ⟨[⟨1, "m", UserState.CHATTING, some 2, none⟩, ⟨2, "f", UserState.CHATTING, some 1, none⟩],
    [], [⟨1, 1, 2, 0⟩], [], [], [], 2⟩

/-- One direction of the claimed invariant: every non-null partner reference
is backed by an open session containing that user. -/
def partnerImpliesSession (db : DB) : Prop :=
  ∀ r ∈ db.users, r.partner_id ≠ none →
    ∃ c ∈ db.active_chats, c.user_a = r.user_id ∨ c.user_b = r.user_id

/-- Bookkeeping invariant: every chat id is below the autoincrement counter
and identifies its session row uniquely. -/
def chatIdsSound (db : DB) : Prop :=
  (∀ c ∈ db.active_chats, c.chat_id < db.next_chat_id) ∧
  (∀ c ∈ db.active_chats, ∀ c2 ∈ db.active_chats, c.chat_id = c2.chat_id → c = c2)

/-- Counterexample trace for the claimed iff: two users are matched twice in
a row (two open sessions for the same pair) and then torn down once; the
teardown deletes only the first session but nulls both partner references. -/
def cexTraceDB : DB :=
  end_chat_atomic (create_match_atomic (create_match_atomic
    (create_user (create_user DB.empty 1 "m") 2 "f") 0 1 2).2 1 1 2).2 2 1 2

/-! ## Basic ledger lemmas -/

lemma sourceRaw_append (l1 l2 : SunLedger) (u : Int) (s : Source) :
    sourceRaw (l1 ++ l2) u s = sourceRaw l1 u s + sourceRaw l2 u s := by
  simp [sourceRaw, List.filter_append]

lemma sourceRaw_cons (e : SunEntry) (l : SunLedger) (u : Int) (s : Source) :
    sourceRaw (e :: l) u s =
      (if e.user_id = u ∧ e.source = s then e.amount else 0) + sourceRaw l u s := by
  simp only [sourceRaw, List.filter_cons, decide_eq_true_eq]
  split_ifs with h
  · simp
  · simp

lemma sourceRaw_singleton (e : SunEntry) (u : Int) (s : Source) :
    sourceRaw [e] u s = (if e.user_id = u ∧ e.source = s then e.amount else 0) := by
  rw [sourceRaw_cons]
  simp [sourceRaw]

lemma sourceBalance_nonneg (l : SunLedger) (u : Int) (s : Source) :
    0 ≤ sourceBalance l u s := le_max_left 0 _

/-! ## Claims C10 and C8: the raw debit and credit operations -/

/-- Claim C10: for every user, source and amount > 0, `remove_sunflowers`
appends exactly one ledger entry of `-amount` with no precondition on the
balance — the raw per-source sum can be driven negative — and returns the full
requested amount even when it exceeds the available balance; for amount ≤ 0 it
appends nothing and returns 0. -/
theorem remove_sunflowers_spec (l : SunLedger) (u : Int) (s : Source) (amount : Int) :
    (amount ≤ 0 → remove_sunflowers l u amount s = (l, 0)) ∧
    (0 < amount →
      remove_sunflowers l u amount s = (l ++ [⟨u, s, -amount⟩], amount) ∧
      sourceRaw (remove_sunflowers l u amount s).1 u s = sourceRaw l u s - amount) ∧
    (sourceBalance ([] : SunLedger) 7 .game = 0 ∧
      remove_sunflowers ([] : SunLedger) 7 5 .game = ([⟨7, .game, -5⟩], 5) ∧
      sourceRaw ((remove_sunflowers ([] : SunLedger) 7 5 .game).1) 7 .game = -5) := by
  refine ⟨fun h => ?_, fun h => ⟨?_, ?_⟩, by decide⟩
  · simp [remove_sunflowers, h]
  · simp [remove_sunflowers, not_le.mpr h]
  · have hne : ¬ amount ≤ 0 := not_le.mpr h
    simp [remove_sunflowers, hne, sourceRaw_append, sourceRaw_singleton]
    omega

/-- Witness for C10 at a concrete input: removing 4 game sunflowers from a
one-entry ledger appends the negative row and returns 4. -/
theorem remove_sunflowers_spec_witness :
    remove_sunflowers [⟨1, .game, 10⟩] 1 4 .game = ([⟨1, .game, 10⟩, ⟨1, .game, -4⟩], 4) ∧
    remove_sunflowers [⟨1, .game, 10⟩] 1 0 .game = ([⟨1, .game, 10⟩], 0) := by
  refine ⟨((remove_sunflowers_spec [⟨1, .game, 10⟩] 1 .game 4).2.1 (by decide)).1, ?_⟩
  exact (remove_sunflowers_spec [⟨1, .game, 10⟩] 1 .game 0).1 (by decide)

/-- Counterexample to claim C8 as stated: on a ledger whose game raw sum is
negative (reachable via `remove_sunflowers`), crediting 3 game sunflowers
appends the row but the reported game balance stays 0 — it does not increase
by exactly 3. -/
theorem add_sunflowers_balance_cex :
    (0 : Int) < 3 ∧
    sourceBalance ((remove_sunflowers ([] : SunLedger) 7 5 .game).1) 7 .game = 0 ∧
    sourceBalance
        (add_sunflowers ((remove_sunflowers ([] : SunLedger) 7 5 .game).1) 7 3 .game) 7 .game ≠
      sourceBalance ((remove_sunflowers ([] : SunLedger) 7 5 .game).1) 7 .game + 3 := by
  decide

/-- Claim C8, amended: `add_sunflowers` with amount ≤ 0 is a no-op; with
amount > 0 it appends exactly one positive entry and increases the raw sum of
that source by exactly `amount`; the reported (zero-floored) balance of that
source increases by exactly `amount` provided the source's raw sum was
non-negative beforehand (on a ledger driven negative by `remove_sunflowers`
the reported increase can be smaller). -/
theorem add_sunflowers_spec (l : SunLedger) (u : Int) (s : Source) (amount : Int) :
    (amount ≤ 0 → add_sunflowers l u amount s = l) ∧
    (0 < amount →
      add_sunflowers l u amount s = l ++ [⟨u, s, amount⟩] ∧
      sourceRaw (add_sunflowers l u amount s) u s = sourceRaw l u s + amount ∧
      (0 ≤ sourceRaw l u s →
        sourceBalance (add_sunflowers l u amount s) u s = sourceBalance l u s + amount)) := by
  refine ⟨fun h => ?_, fun h => ⟨?_, ?_, fun hraw => ?_⟩⟩
  · simp [add_sunflowers, h]
  · simp [add_sunflowers, not_le.mpr h]
  · simp [add_sunflowers, not_le.mpr h, sourceRaw_append, sourceRaw_singleton]
  · have hne : ¬ amount ≤ 0 := not_le.mpr h
    simp only [sourceBalance, add_sunflowers, if_neg hne, sourceRaw_append, sourceRaw_singleton]
    simp
    omega

/-- Witness for C8 (amended) at a concrete input: crediting 2 gift sunflowers
to a fresh ledger yields balance 2, and a non-positive credit is a no-op. -/
theorem add_sunflowers_spec_witness :
    add_sunflowers ([] : SunLedger) 1 0 .gift = [] ∧
    sourceBalance (add_sunflowers ([] : SunLedger) 1 2 .gift) 1 .gift =
      sourceBalance ([] : SunLedger) 1 .gift + 2 := by
  refine ⟨(add_sunflowers_spec [] 1 .gift 0).1 (by decide), ?_⟩
  exact ((add_sunflowers_spec [] 1 .gift 2).2 (by decide)).2.2 (by decide)

/-! ## Smart debit: characterization and safety (claims C4, C5) -/

lemma sourceRaw_cons_mk (u0 : Int) (s0 : Source) (a0 : Int) (l : SunLedger)
    (u : Int) (s : Source) :
    sourceRaw (⟨u0, s0, a0⟩ :: l) u s =
      (if u0 = u ∧ s0 = s then a0 else 0) + sourceRaw l u s := by
  rw [sourceRaw_cons]

lemma waterfall_nonpos (bal : Source → Int) (ss : List Source) (rem : Int)
    (h : rem ≤ 0) : waterfallDeducts bal ss rem = [] := by
  induction ss with
  | nil => rfl
  | cons t rest ih =>
    rw [waterfallDeducts, if_neg (by omega)]
    exact ih

lemma debitSteps_fst (u : Int) (bal : Source → Int) (ss : List Source) :
    ∀ (l1 : SunLedger) (rem : Int),
      (debitSteps u bal ss (l1, rem)).1 =
        l1 ++ (waterfallDeducts bal ss rem).map (fun p => (⟨u, p.1, -p.2⟩ : SunEntry)) := by
  induction ss with
  | nil => intro l1 rem; simp [debitSteps, waterfallDeducts]
  | cons t rest ih =>
    intro l1 rem
    by_cases hc : 0 < rem ∧ 0 < bal t
    · have hd : 0 < min (bal t) rem := lt_min hc.2 hc.1
      have hd2 : ¬ min (bal t) rem ≤ 0 := by omega
      simp only [debitSteps]
      rw [if_pos hc]
      simp only [remove_sunflowers, if_neg hd2]
      rw [ih]
      conv_rhs => rw [waterfallDeducts]
      rw [if_pos hc, List.map_cons]
      simp [List.append_assoc]
    · simp only [debitSteps]
      rw [if_neg hc, ih l1 rem]
      conv_rhs => rw [waterfallDeducts]
      rw [if_neg hc]

lemma deduct_as_steps (l : SunLedger) (u : Int) (amount : Int)
    (htot : ¬ totalBalance l u < amount) :
    deduct_sunflowers_smart l u amount =
      ((debitSteps u (sourceBalance l u) [.gift, .rating, .streak]
          (if 0 < sourceBalance l u .game then
            ((remove_sunflowers l u (min (sourceBalance l u .game) amount) .game).1,
              amount - min (sourceBalance l u .game) amount)
          else (l, amount))).1, true) := by
  rw [deduct_sunflowers_smart, if_neg htot]
  rfl

/-- The smart debit equals the spec-worded waterfall policy: fail without
mutation when the reported total is short, otherwise append exactly the
waterfall's debit rows (in priority order) and succeed. -/
lemma deduct_smart_eq (l : SunLedger) (u : Int) (amount : Int) :
    deduct_sunflowers_smart l u amount =
      if totalBalance l u < amount then (l, false)
      else
        (l ++ (waterfallDeducts (sourceBalance l u) priorityOrder amount).map
            (fun p => (⟨u, p.1, -p.2⟩ : SunEntry)), true) := by
  by_cases htot : totalBalance l u < amount
  · rw [if_pos htot, deduct_sunflowers_smart, if_pos htot]
  · rw [if_neg htot, deduct_as_steps l u amount htot]
    have hbg : 0 ≤ sourceBalance l u .game := sourceBalance_nonneg l u .game
    rcases lt_or_le 0 amount with hamt | hamt
    · by_cases hg : 0 < sourceBalance l u .game
      · have hd : 0 < min (sourceBalance l u .game) amount := lt_min hg hamt
        have hd2 : ¬ min (sourceBalance l u .game) amount ≤ 0 := by omega
        rw [if_pos hg]
        simp only [remove_sunflowers, if_neg hd2]
        rw [debitSteps_fst]
        conv_rhs => rw [priorityOrder, waterfallDeducts]
        rw [if_pos ⟨hamt, hg⟩, List.map_cons]
        simp [List.append_assoc]
      · rw [if_neg hg, debitSteps_fst]
        conv_rhs => rw [priorityOrder, waterfallDeducts]
        rw [if_neg (fun hc => hg hc.2)]
    · have hwf : ∀ ss, waterfallDeducts (sourceBalance l u) ss amount = [] :=
        fun ss => waterfall_nonpos _ ss amount hamt
      by_cases hg : 0 < sourceBalance l u .game
      · have hmin : min (sourceBalance l u .game) amount = amount :=
          min_eq_right (by omega)
        rw [if_pos hg, hmin]
        simp only [remove_sunflowers, if_pos hamt]
        rw [debitSteps_fst,
          waterfall_nonpos (sourceBalance l u) [.gift, .rating, .streak] (amount - amount)
            (by omega),
          hwf]
      · rw [if_neg hg, debitSteps_fst]
        simp only [hwf]

lemma waterfall_mem (bal : Source → Int) (ss : List Source) (rem : Int) :
    ∀ p ∈ waterfallDeducts bal ss rem, p.1 ∈ ss ∧ 0 < p.2 ∧ p.2 ≤ bal p.1 := by
  induction ss generalizing rem with
  | nil => simp [waterfallDeducts]
  | cons s rest ih =>
    intro p hp
    simp only [waterfallDeducts] at hp
    split_ifs at hp with hg
    · rcases List.mem_cons.mp hp with h | h
      · subst h
        exact ⟨List.mem_cons_self _ _, lt_min hg.2 hg.1, min_le_left _ _⟩
      · rcases ih _ p h with ⟨h1, h2, h3⟩
        exact ⟨List.mem_cons_of_mem _ h1, h2, h3⟩
    · rcases ih rem p hp with ⟨h1, h2, h3⟩
      exact ⟨List.mem_cons_of_mem _ h1, h2, h3⟩

lemma waterfall_raw_notin (bal : Source → Int) (ss : List Source) (rem : Int)
    (u : Int) (s : Source) (hs : s ∉ ss) :
    sourceRaw ((waterfallDeducts bal ss rem).map
      (fun p => (⟨u, p.1, -p.2⟩ : SunEntry))) u s = 0 := by
  induction ss generalizing rem with
  | nil => simp [waterfallDeducts, sourceRaw]
  | cons t rest ih =>
    have hts : t ≠ s := fun h => hs (h ▸ List.mem_cons_self _ _)
    have hrest : s ∉ rest := fun h => hs (List.mem_cons_of_mem _ h)
    simp only [waterfallDeducts]
    split_ifs with hg
    · rw [List.map_cons, sourceRaw_cons_mk, if_neg (fun hc => hts hc.2), zero_add]
      exact ih _ hrest
    · exact ih _ hrest

lemma waterfall_raw_bounds (bal : Source → Int) (ss : List Source) (rem : Int)
    (u : Int) (s : Source) (hnd : ss.Nodup) (hbal : 0 ≤ bal s) :
    -(bal s) ≤ sourceRaw ((waterfallDeducts bal ss rem).map
        (fun p => (⟨u, p.1, -p.2⟩ : SunEntry))) u s ∧
    sourceRaw ((waterfallDeducts bal ss rem).map
        (fun p => (⟨u, p.1, -p.2⟩ : SunEntry))) u s ≤ 0 := by
  induction ss generalizing rem with
  | nil =>
    simp only [waterfallDeducts, List.map_nil]
    simp only [sourceRaw, List.filter_nil, List.map_nil, List.sum_nil]
    omega
  | cons t rest ih =>
    rcases List.nodup_cons.mp hnd with ⟨htrest, hndrest⟩
    simp only [waterfallDeducts]
    split_ifs with hg
    · rw [List.map_cons, sourceRaw_cons_mk]
      by_cases hts : t = s
      · subst hts
        rw [waterfall_raw_notin bal rest _ u t htrest, if_pos ⟨rfl, rfl⟩]
        have h1 : min (bal t) rem ≤ bal t := min_le_left _ _
        have h2 : 0 < min (bal t) rem := lt_min hg.2 hg.1
        constructor <;> omega
      · rw [if_neg (fun hc => hts hc.2), zero_add]
        exact ih _ hndrest
    · exact ih rem hndrest

lemma entries_raw_total (ps : List (Source × Int)) (u : Int) :
    sourceRaw (ps.map (fun p => (⟨u, p.1, -p.2⟩ : SunEntry))) u .streak +
      sourceRaw (ps.map (fun p => (⟨u, p.1, -p.2⟩ : SunEntry))) u .game +
      sourceRaw (ps.map (fun p => (⟨u, p.1, -p.2⟩ : SunEntry))) u .gift +
      sourceRaw (ps.map (fun p => (⟨u, p.1, -p.2⟩ : SunEntry))) u .rating =
    -((ps.map (fun p => p.2)).sum) := by
  induction ps with
  | nil => simp [sourceRaw]
  | cons p rest ih =>
    obtain ⟨ps, pd⟩ := p
    rw [List.map_cons, sourceRaw_cons_mk, sourceRaw_cons_mk, sourceRaw_cons_mk,
      sourceRaw_cons_mk, List.map_cons, List.sum_cons]
    cases ps <;> simp_all <;> omega

lemma waterfall_consumed (bal : Source → Int) (ss : List Source) (rem : Int)
    (h0 : ∀ t, 0 ≤ bal t) (hrem : 0 ≤ rem) :
    ((waterfallDeducts bal ss rem).map (fun p => p.2)).sum = min rem ((ss.map bal).sum) := by
  induction ss generalizing rem with
  | nil => simp [waterfallDeducts, hrem]
  | cons t rest ih =>
    have hsum : 0 ≤ (rest.map bal).sum := by
      have : ∀ x ∈ rest.map bal, 0 ≤ x := by
        intro x hx
        rcases List.mem_map.mp hx with ⟨t', _, rfl⟩
        exact h0 t'
      exact List.sum_nonneg this
    simp only [waterfallDeducts, List.map_cons, List.sum_cons]
    split_ifs with hg
    · rw [List.map_cons, List.sum_cons, ih _ (by omega)]
      have h1 : min (bal t) rem ≤ bal t := min_le_left _ _
      have h2 : min (bal t) rem ≤ rem := min_le_right _ _
      omega
    · rw [ih rem hrem]
      have ht := h0 t
      omega

/-- Claim C4: `deduct_sunflowers_smart(u, amount)` returns False with no
ledger mutation when the reported total balance is below `amount`; otherwise
it returns True and appends exactly the debits of the fixed-priority waterfall
game → gift → rating → streak (consuming as much as available from each
source, until the amount is covered, per `waterfallDeducts`). In particular
the spec scenario: after crediting 10 game and 20 rating, a smart debit of 25
leaves game=0, rating=5, gift=0, streak=0, total=5. -/
theorem deduct_sunflowers_smart_correct (l : SunLedger) (u : Int) (amount : Int) :
    (totalBalance l u < amount → deduct_sunflowers_smart l u amount = (l, false)) ∧
    (¬ totalBalance l u < amount →
      (deduct_sunflowers_smart l u amount).2 = true ∧
      (deduct_sunflowers_smart l u amount).1 =
        l ++ (waterfallDeducts (sourceBalance l u) priorityOrder amount).map
          (fun p => (⟨u, p.1, -p.2⟩ : SunEntry))) ∧
    (sourceBalance (deduct_sunflowers_smart scenarioLedger 1 25).1 1 .game = 0 ∧
      sourceBalance (deduct_sunflowers_smart scenarioLedger 1 25).1 1 .rating = 5 ∧
      sourceBalance (deduct_sunflowers_smart scenarioLedger 1 25).1 1 .gift = 0 ∧
      sourceBalance (deduct_sunflowers_smart scenarioLedger 1 25).1 1 .streak = 0 ∧
      totalBalance (deduct_sunflowers_smart scenarioLedger 1 25).1 1 = 5 ∧
      (deduct_sunflowers_smart scenarioLedger 1 25).2 = true) := by
  refine ⟨fun h => ?_, fun h => ?_, by decide⟩
  · rw [deduct_smart_eq, if_pos h]
  · rw [deduct_smart_eq, if_neg h]
    exact ⟨rfl, rfl⟩

/-- Witness for C4 at concrete inputs: an uncovered debit fails without
mutation, and the spec-scenario debit succeeds. -/
theorem deduct_sunflowers_smart_correct_witness :
    deduct_sunflowers_smart ([] : SunLedger) 1 5 = ([], false) ∧
    (deduct_sunflowers_smart scenarioLedger 1 25).2 = true := by
  refine ⟨(deduct_sunflowers_smart_correct [] 1 5).1 (by decide), ?_⟩
  exact ((deduct_sunflowers_smart_correct scenarioLedger 1 25).2.1 (by decide)).1

/-- Counterexample to claim C5 as stated: for a negative requested amount the
smart debit succeeds (total 0 is not below -1) while performing zero
reductions, so the sum of per-source reductions (0) differs from the amount
(-1). -/
theorem smart_debit_sum_cex :
    (deduct_sunflowers_smart ([] : SunLedger) 1 (-1)).2 = true ∧
    (deduct_sunflowers_smart ([] : SunLedger) 1 (-1)).1 = [] ∧
    (0 : Int) ≠ -1 := by
  decide

/-- Claim C5, amended to non-negative amounts: the smart debit never reduces
any source's reported balance below zero — each source's reduction is between
0 and its prior reported balance, and the new reported balance is exactly the
old one minus the reduction; on failure the ledger is unchanged; and on
success with `0 ≤ amount` the per-source reductions sum to exactly `amount`.
(As stated over every amount the claim fails: a negative amount succeeds with
zero total reduction.) -/
theorem smart_debit_safety (l : SunLedger) (u : Int) (amount : Int) :
    ((deduct_sunflowers_smart l u amount).2 = false →
      (deduct_sunflowers_smart l u amount).1 = l) ∧
    (∀ s, 0 ≤ sourceRaw l u s - sourceRaw (deduct_sunflowers_smart l u amount).1 u s ∧
      sourceRaw l u s - sourceRaw (deduct_sunflowers_smart l u amount).1 u s ≤
        sourceBalance l u s ∧
      sourceBalance (deduct_sunflowers_smart l u amount).1 u s =
        sourceBalance l u s -
          (sourceRaw l u s - sourceRaw (deduct_sunflowers_smart l u amount).1 u s)) ∧
    ((deduct_sunflowers_smart l u amount).2 = true → 0 ≤ amount →
      (sourceRaw l u .streak - sourceRaw (deduct_sunflowers_smart l u amount).1 u .streak) +
        (sourceRaw l u .game - sourceRaw (deduct_sunflowers_smart l u amount).1 u .game) +
        (sourceRaw l u .gift - sourceRaw (deduct_sunflowers_smart l u amount).1 u .gift) +
        (sourceRaw l u .rating - sourceRaw (deduct_sunflowers_smart l u amount).1 u .rating) =
      amount) := by
  by_cases htot : totalBalance l u < amount
  · rw [deduct_smart_eq, if_pos htot]
    refine ⟨fun _ => rfl, fun s => ?_, fun hb => by simp at hb⟩
    have := sourceBalance_nonneg l u s
    simp only [sourceBalance] at this ⊢
    omega
  · rw [deduct_smart_eq, if_neg htot]
    have hnd : priorityOrder.Nodup := by decide
    refine ⟨fun hb => by simp at hb, fun s => ?_, fun _ hamt => ?_⟩
    · have hbounds := waterfall_raw_bounds (sourceBalance l u) priorityOrder amount u s hnd
        (sourceBalance_nonneg l u s)
      simp only [sourceBalance] at hbounds ⊢
      rw [sourceRaw_append]
      omega
    · have htotal := entries_raw_total (waterfallDeducts (sourceBalance l u)
        priorityOrder amount) u
      have hcons := waterfall_consumed (sourceBalance l u) priorityOrder amount
        (fun t => sourceBalance_nonneg l u t) hamt
      rw [sourceRaw_append, sourceRaw_append, sourceRaw_append, sourceRaw_append]
      simp only [priorityOrder, List.map_cons, List.map_nil, List.sum_cons, List.sum_nil]
        at htotal hcons ⊢
      simp only [totalBalance] at htot
      omega

/-- Witness for C5 (amended) at concrete inputs: a failing debit leaves the
ledger unchanged, and a succeeding debit of 2 from a 3-game-sunflower ledger
reduces the sources by 2 in total. -/
theorem smart_debit_safety_witness :
    (deduct_sunflowers_smart ([] : SunLedger) 1 5).1 = [] ∧
    (sourceRaw [(⟨1, .game, 3⟩ : SunEntry)] 1 .streak -
        sourceRaw (deduct_sunflowers_smart [(⟨1, .game, 3⟩ : SunEntry)] 1 2).1 1 .streak) +
      (sourceRaw [(⟨1, .game, 3⟩ : SunEntry)] 1 .game -
        sourceRaw (deduct_sunflowers_smart [(⟨1, .game, 3⟩ : SunEntry)] 1 2).1 1 .game) +
      (sourceRaw [(⟨1, .game, 3⟩ : SunEntry)] 1 .gift -
        sourceRaw (deduct_sunflowers_smart [(⟨1, .game, 3⟩ : SunEntry)] 1 2).1 1 .gift) +
      (sourceRaw [(⟨1, .game, 3⟩ : SunEntry)] 1 .rating -
        sourceRaw (deduct_sunflowers_smart [(⟨1, .game, 3⟩ : SunEntry)] 1 2).1 1 .rating) =
      2 := by
  refine ⟨(smart_debit_safety [] 1 5).1 (by decide), ?_⟩
  exact (smart_debit_safety [⟨1, .game, 3⟩] 1 2).2.2 (by decide) (by decide)

/-! ## Claims C7, C9, C6: candidate query, pool upsert, conditional transition -/

/-- Claim C7: the candidate query returns exactly the pool entries other than
the requester whose user is not recorded in the requester's match history with
a last-matched time strictly after `now - window`. -/
theorem get_waiting_candidates_spec (db : DB) (now window u : Int) (g : String)
    (w : WaitingRow) :
    w ∈ get_waiting_candidates db now window u g ↔
      (w ∈ db.waiting_users ∧ w.user_id ≠ u ∧
        ¬ ∃ h ∈ db.match_history,
            h.user_id = u ∧ h.partner_id = w.user_id ∧ now - window < h.last_matched_at) := by
  simp [get_waiting_candidates, List.mem_filter, and_assoc]

/-- Claim C9: joining the waiting pool is an upsert keyed on the user — after
a join the pool holds exactly one entry for that user (the fresh row), all
other users' entries are untouched, and re-joining with the same arguments is
idempotent. -/
theorem join_waiting_pool_upsert (db : DB) (now u : Int) (g : String) (p : Bool)
    (r : Option Rat) (rc : Int) (gp : Option String) :
    ((join_waiting_pool db now u g p r rc gp).waiting_users.filter
        (fun w => decide (w.user_id = u))) =
      [⟨u, g, if p then 1 else 0, r, rc, gp, now⟩] ∧
    ((join_waiting_pool db now u g p r rc gp).waiting_users.filter
        (fun w => decide (w.user_id ≠ u))) =
      db.waiting_users.filter (fun w => decide (w.user_id ≠ u)) ∧
    join_waiting_pool (join_waiting_pool db now u g p r rc gp) now u g p r rc gp =
      join_waiting_pool db now u g p r rc gp := by
  refine ⟨?_, ?_, ?_⟩
  · simp [join_waiting_pool, List.filter_append, List.filter_filter]
  · simp [join_waiting_pool, List.filter_append, List.filter_filter]
  · simp [join_waiting_pool, List.filter_append, List.filter_filter]

lemma map_self_of_forall {α : Type} (l : List α) (φ : α → α) (h : ∀ a ∈ l, φ a = a) :
    l.map φ = l := by
  induction l with
  | nil => rfl
  | cons a rest ih =>
    rw [List.map_cons, h a (List.mem_cons_self a rest),
      ih (fun x hx => h x (List.mem_cons_of_mem a hx))]

/-- Rows are found by `find?` uniquely when the user ids are distinct (the
`users` table is keyed on `user_id`). -/
lemma find_user_unique (l : List UserRow) (hnd : (l.map (fun r => r.user_id)).Nodup)
    (u : Int) (r : UserRow) (hr : r ∈ l) (hid : r.user_id = u) :
    l.find? (fun r2 => decide (r2.user_id = u)) = some r := by
  induction l with
  | nil => cases hr
  | cons a rest ih =>
    rw [List.map_cons, List.nodup_cons] at hnd
    rcases List.mem_cons.mp hr with rfl | hmem
    · exact List.find?_cons_of_pos _ (by simp [hid])
    · by_cases hau : a.user_id = u
      · exact absurd (List.mem_map.mpr ⟨r, hmem, hid.trans hau.symm⟩) hnd.1
      · rw [List.find?_cons_of_neg _ (by simp [hau])]
        exact ih hnd.2 hmem

/-- Claim C6: the conditional transition succeeds exactly when the user's
current stored state equals `from_state`; on success the stored state becomes
`to_state` with the last-active timestamp refreshed in the same update, and on
failure the store is unchanged. -/
theorem transition_state_correct (db : DB) (now u : Int) (f t : String)
    (hnd : (db.users.map (fun r => r.user_id)).Nodup) :
    ((transition_state db now u f t).2 = true ↔ get_user_state db u = some f) ∧
    ((transition_state db now u f t).2 = true →
      get_user_state (transition_state db now u f t).1 u = some t ∧
      ∃ r ∈ (transition_state db now u f t).1.users,
        r.user_id = u ∧ r.current_state = t ∧ r.last_active = some now) ∧
    ((transition_state db now u f t).2 = false → (transition_state db now u f t).1 = db) := by
  have hmain : (transition_state db now u f t).2 = true ↔ get_user_state db u = some f := by
    constructor
    · intro h
      rcases List.any_eq_true.mp h with ⟨r, hrmem, hr⟩
      rcases of_decide_eq_true hr with ⟨hid, hst⟩
      rw [get_user_state, find_user_unique db.users hnd u r hrmem hid]
      simp [hst]
    · intro h
      rcases Option.map_eq_some'.mp h with ⟨r, hfind, hst⟩
      have hmem := List.mem_of_find?_eq_some hfind
      have hid : r.user_id = u := by simpa using List.find?_some hfind
      exact List.any_eq_true.mpr ⟨r, hmem, decide_eq_true ⟨hid, hst⟩⟩
  refine ⟨hmain, fun h => ?_, fun h => ?_⟩
  · rcases Option.map_eq_some'.mp (hmain.mp h) with ⟨r, hfind, hst⟩
    have hmem := List.mem_of_find?_eq_some hfind
    have hid : r.user_id = u := by simpa using List.find?_some hfind
    have hcond : r.user_id = u ∧ r.current_state = f := ⟨hid, hst⟩
    have hfun : (fun r2 : UserRow => decide
        ((if r2.user_id = u ∧ r2.current_state = f then
            { r2 with current_state := t, last_active := some now }
          else r2).user_id = u)) =
        (fun r2 : UserRow => decide (r2.user_id = u)) := by
      funext r2
      by_cases hc : r2.user_id = u ∧ r2.current_state = f
      · rw [if_pos hc]
      · rw [if_neg hc]
    constructor
    · rw [transition_state, get_user_state]
      simp only [List.find?_map, Function.comp_def, hfun]
      rw [hfind]
      simp [if_pos hcond]
    · refine ⟨{ r with current_state := t, last_active := some now }, ?_, hid, rfl, rfl⟩
      rw [transition_state]
      exact List.mem_map.mpr ⟨r, hmem, by rw [if_pos hcond]⟩
  · have hall : ∀ r ∈ db.users, ¬ (r.user_id = u ∧ r.current_state = f) := by
      intro r hrmem hc
      have : (transition_state db now u f t).2 = true :=
        List.any_eq_true.mpr ⟨r, hrmem, decide_eq_true hc⟩
      rw [h] at this
      cases this
    have : db.users.map (fun r : UserRow =>
        if r.user_id = u ∧ r.current_state = f then
          { r with current_state := t, last_active := some now }
        else r) = db.users := by
      exact map_self_of_forall _ _ (fun r hrmem => if_neg (hall r hrmem))
    rw [transition_state]
    simp only [this]

/-- Witness for C6 at a concrete store: a single IDLE user transitions to
SEARCHING with the timestamp refreshed, and a mismatched transition leaves the
store unchanged. -/
theorem transition_state_correct_witness :
    get_user_state
        (transition_state (⟨[⟨1, "m", UserState.IDLE, none, none⟩], [], [], [], [], [], 1⟩ : DB)
          9 1 UserState.IDLE UserState.SEARCHING).1 1 = some UserState.SEARCHING ∧
    (transition_state (⟨[⟨1, "m", UserState.IDLE, none, none⟩], [], [], [], [], [], 1⟩ : DB)
        9 1 UserState.CHATTING UserState.RATING).1 =
      (⟨[⟨1, "m", UserState.IDLE, none, none⟩], [], [], [], [], [], 1⟩ : DB) := by
  constructor
  · exact ((transition_state_correct
      (⟨[⟨1, "m", UserState.IDLE, none, none⟩], [], [], [], [], [], 1⟩ : DB)
      9 1 UserState.IDLE UserState.SEARCHING (by decide)).2.1 (by decide)).1
  · exact (transition_state_correct
      (⟨[⟨1, "m", UserState.IDLE, none, none⟩], [], [], [], [], [], 1⟩ : DB)
      9 1 UserState.CHATTING UserState.RATING (by decide)).2.2 (by decide)

/-! ## Claims C1 and C2: atomic pairing and atomic teardown -/

/-- Counterexample to claim C1 as stated: user 1's stored state is CHATTING
(neither IDLE nor SEARCHING), yet `create_match_atomic(1, 2)` does not fail —
it reports a nonzero chat id and applies its effects, re-pointing user 1 at
partner 2, instead of rolling back and reporting no match. -/
theorem create_match_atomic_cex :
    get_user_state raceDB 1 = some UserState.CHATTING ∧
    UserState.CHATTING ≠ UserState.IDLE ∧
    UserState.CHATTING ≠ UserState.SEARCHING ∧
    (create_match_atomic raceDB 5 1 2).1 ≠ 0 ∧
    (create_match_atomic raceDB 5 1 2).2 ≠ raceDB ∧
    (∃ r ∈ (create_match_atomic raceDB 5 1 2).2.users,
      r.user_id = 1 ∧ r.partner_id = some 2 ∧ r.current_state = UserState.CHATTING) := by
  decide

/-- Claim C1, amended: `create_match_atomic` applies all four pairing effects
in one transaction — pool removal of both users, insertion of the session row
under the fresh chat id, both user rows set to CHATTING with mutual partner
references, and symmetric match-history rows — and reports the fresh chat id,
with no precondition on the users' current states: a user whose state already
changed (e.g. to CHATTING by a concurrent pairing) is silently re-pointed;
the operation never fails or rolls back on a state mismatch. -/
theorem create_match_atomic_effects (db : DB) (now a b : Int) :
    (create_match_atomic db now a b).1 = db.next_chat_id ∧
    (create_match_atomic db now a b).2.waiting_users =
      db.waiting_users.filter (fun w => decide (w.user_id ≠ a ∧ w.user_id ≠ b)) ∧
    (create_match_atomic db now a b).2.active_chats =
      db.active_chats ++ [⟨db.next_chat_id, a, b, now⟩] ∧
    (⟨a, b, now⟩ : HistoryRow) ∈ (create_match_atomic db now a b).2.match_history ∧
    (⟨b, a, now⟩ : HistoryRow) ∈ (create_match_atomic db now a b).2.match_history ∧
    (a ≠ b →
      (∀ r ∈ db.users, r.user_id = a →
        ({ r with partner_id := some b, current_state := UserState.CHATTING } : UserRow) ∈
          (create_match_atomic db now a b).2.users) ∧
      (∀ r ∈ db.users, r.user_id = b →
        ({ r with partner_id := some a, current_state := UserState.CHATTING } : UserRow) ∈
          (create_match_atomic db now a b).2.users)) ∧
    (∀ r ∈ db.users, r.user_id ≠ a → r.user_id ≠ b →
      r ∈ (create_match_atomic db now a b).2.users) := by
  refine ⟨rfl, rfl, rfl, ?_, ?_, fun hab => ⟨?_, ?_⟩, ?_⟩
  · by_cases hba : a = b
    · subst hba
      exact List.mem_append_right _ (List.mem_singleton.mpr rfl)
    · refine List.mem_append_left _ (List.mem_filter.mpr
        ⟨List.mem_append_right _ (List.mem_singleton.mpr rfl), ?_⟩)
      exact decide_eq_true (fun hc => hba hc.1)
  · exact List.mem_append_right _ (List.mem_singleton.mpr rfl)
  · intro r hr hra
    exact List.mem_map.mpr ⟨_, List.mem_map.mpr ⟨r, hr, if_pos hra⟩,
      if_neg (fun hc => hab (hra.symm.trans hc))⟩
  · intro r hr hrb
    exact List.mem_map.mpr ⟨r,
      List.mem_map.mpr ⟨r, hr, if_neg (fun hc => hab (hc.symm.trans hrb))⟩, if_pos hrb⟩
  · intro r hr hra hrb
    exact List.mem_map.mpr ⟨r, List.mem_map.mpr ⟨r, hr, if_neg hra⟩, if_neg hrb⟩

/-- Witness for C1 (amended) at a concrete store: pairing users 1 and 2 of a
fresh pool reports chat id 1, writes the history row, and sets user 1
CHATTING with partner 2. -/
theorem create_match_atomic_effects_witness :
    (create_match_atomic pairDB 0 1 2).1 = pairDB.next_chat_id ∧
    (⟨1, 2, 0⟩ : HistoryRow) ∈ (create_match_atomic pairDB 0 1 2).2.match_history ∧
    (⟨1, "m", UserState.CHATTING, some 2, none⟩ : UserRow) ∈
      (create_match_atomic pairDB 0 1 2).2.users := by
  have h := create_match_atomic_effects pairDB 0 1 2
  exact ⟨h.1, h.2.2.2.1,
    (h.2.2.2.2.2.1 (by decide)).1 ⟨1, "m", UserState.SEARCHING, none, none⟩
      (by decide) rfl⟩

/-- Counterexample to claim C2 as stated: after tearing the pair down once
(no open session remains), a second `end_chat_atomic` for the same pair is
not a no-op — it changes the store again and duplicates the pending-rating
obligations. -/
theorem end_chat_atomic_cex :
    (end_chat_atomic doubleEndDB 3 1 2).active_chats = [] ∧
    (end_chat_atomic doubleEndDB 3 1 2).pending_ratings = [⟨1, 2⟩, ⟨2, 1⟩] ∧
    end_chat_atomic (end_chat_atomic doubleEndDB 3 1 2) 4 1 2 ≠
      end_chat_atomic doubleEndDB 3 1 2 ∧
    (end_chat_atomic (end_chat_atomic doubleEndDB 3 1 2) 4 1 2).pending_ratings =
      [⟨1, 2⟩, ⟨2, 1⟩, ⟨1, 2⟩, ⟨2, 1⟩] := by
  decide

/-- Claim C2, amended: when no open session exists for the pair,
`end_chat_atomic` leaves sessions, games, the waiting pool and the match
history unchanged — but it is not a full no-op: it still clears both users'
partner references and still appends a fresh pair of pending-rating rows, so
a repeated call duplicates the rating obligations. -/
theorem end_chat_atomic_no_session (db : DB) (now a b : Int)
    (h : ¬ ∃ c ∈ db.active_chats,
        (c.user_a = a ∧ c.user_b = b) ∨ (c.user_a = b ∧ c.user_b = a)) :
    (end_chat_atomic db now a b).active_chats = db.active_chats ∧
    (end_chat_atomic db now a b).active_games = db.active_games ∧
    (end_chat_atomic db now a b).waiting_users = db.waiting_users ∧
    (end_chat_atomic db now a b).match_history = db.match_history ∧
    (end_chat_atomic db now a b).pending_ratings =
      db.pending_ratings ++ [⟨a, b⟩, ⟨b, a⟩] ∧
    (∀ r ∈ (end_chat_atomic db now a b).users,
      (r.user_id = a ∨ r.user_id = b) → r.partner_id = none) ∧
    (∀ r ∈ db.users, r.user_id ≠ a → r.user_id ≠ b →
      r ∈ (end_chat_atomic db now a b).users) := by
  have hfind : db.active_chats.find? (fun c =>
      decide ((c.user_a = a ∧ c.user_b = b) ∨ (c.user_a = b ∧ c.user_b = a))) = none := by
    rw [List.find?_eq_none]
    intro c hc
    simp only [decide_eq_true_eq]
    exact fun hp => h ⟨c, hc, hp⟩
  rw [end_chat_atomic, hfind]
  refine ⟨rfl, rfl, rfl, rfl, rfl, ?_, ?_⟩
  · intro r hr hab
    rcases List.mem_map.mp hr with ⟨r0, _, rfl⟩
    by_cases hc : r0.user_id = a ∨ r0.user_id = b
    · rw [if_pos hc]
    · rw [if_neg hc] at hab ⊢
      exact absurd hab hc
  · intro r hr hra hrb
    exact List.mem_map.mpr ⟨r, hr, if_neg (by simp [hra, hrb])⟩

/-- Witness for C2 (amended) at a concrete store: tearing down a pair with no
open session appends the two rating rows and leaves the (empty) session table
unchanged. -/
theorem end_chat_atomic_no_session_witness :
    (end_chat_atomic pairDB 0 1 2).active_chats = pairDB.active_chats ∧
    (end_chat_atomic pairDB 0 1 2).pending_ratings =
      pairDB.pending_ratings ++ [⟨1, 2⟩, ⟨2, 1⟩] := by
  have h := end_chat_atomic_no_session pairDB 0 1 2 (by decide)
  exact ⟨h.1, h.2.2.2.2.1⟩

/-! ## Claim C3: partner references versus open sessions -/

lemma end_chat_atomic_found (db : DB) (now a b : Int) (c0 : ChatRow)
    (hfind : db.active_chats.find? (fun c =>
      decide ((c.user_a = a ∧ c.user_b = b) ∨ (c.user_a = b ∧ c.user_b = a))) = some c0) :
    end_chat_atomic db now a b =
      { db with
          active_games := db.active_games.map (fun (g : GameRow) =>
            if g.chat_id = c0.chat_id ∧ g.winner_id = none then { g with ended_at := some now }
            else g),
          active_chats := db.active_chats.filter (fun c2 => decide (c2.chat_id ≠ c0.chat_id)),
          users := db.users.map (fun (r : UserRow) =>
            if r.user_id = a ∨ r.user_id = b then { r with partner_id := none } else r),
          pending_ratings := db.pending_ratings ++ ([⟨a, b⟩, ⟨b, a⟩] : List RatingRow) } := by
  rw [end_chat_atomic, hfind]

lemma end_chat_atomic_notfound (db : DB) (now a b : Int)
    (hfind : db.active_chats.find? (fun c =>
      decide ((c.user_a = a ∧ c.user_b = b) ∨ (c.user_a = b ∧ c.user_b = a))) = none) :
    end_chat_atomic db now a b =
      { db with
          users := db.users.map (fun (r : UserRow) =>
            if r.user_id = a ∨ r.user_id = b then { r with partner_id := none } else r),
          pending_ratings := db.pending_ratings ++ ([⟨a, b⟩, ⟨b, a⟩] : List RatingRow) } := by
  rw [end_chat_atomic, hfind]

lemma reachable_inv (db : DB) (h : Reachable db) :
    partnerImpliesSession db ∧ chatIdsSound db := by
  induction h with
  | init =>
    refine ⟨?_, ?_, ?_⟩ <;> intro r hr <;> simp [DB.empty] at hr
  | createUser db u g _ ih =>
    refine ⟨?_, ih.2⟩
    intro r hr hp
    rcases List.mem_append.mp hr with hold | hnew
    · exact ih.1 r hold hp
    · rw [List.mem_singleton.mp hnew] at hp
      exact absurd rfl hp
  | join db now u g p rt rc gp _ ih => exact ih
  | leave db u _ ih => exact ih
  | stateTrans db now u f t _ ih =>
    refine ⟨?_, ih.2⟩
    intro r2 hr2 hp
    rcases List.mem_map.mp hr2 with ⟨r, hr, rfl⟩
    by_cases hc : r.user_id = u ∧ r.current_state = f
    · rw [if_pos hc] at hp ⊢
      exact ih.1 r hr hp
    · rw [if_neg hc] at hp ⊢
      exact ih.1 r hr hp
  | createMatch db now a b _ ih =>
    refine ⟨?_, ?_, ?_⟩
    · intro r2 hr2 hp
      rcases List.mem_map.mp hr2 with ⟨r1, hr1, rfl⟩
      rcases List.mem_map.mp hr1 with ⟨r, hr, rfl⟩
      by_cases ha : r.user_id = a
      · rw [if_pos ha] at hp ⊢
        by_cases hb : r.user_id = b
        · rw [if_pos hb] at hp ⊢
          exact ⟨⟨db.next_chat_id, a, b, now⟩,
            List.mem_append_right _ (List.mem_singleton.mpr rfl), Or.inl ha.symm⟩
        · rw [if_neg hb] at hp ⊢
          exact ⟨⟨db.next_chat_id, a, b, now⟩,
            List.mem_append_right _ (List.mem_singleton.mpr rfl), Or.inl ha.symm⟩
      · rw [if_neg ha] at hp ⊢
        by_cases hb : r.user_id = b
        · rw [if_pos hb] at hp ⊢
          exact ⟨⟨db.next_chat_id, a, b, now⟩,
            List.mem_append_right _ (List.mem_singleton.mpr rfl), Or.inr hb.symm⟩
        · rw [if_neg hb] at hp ⊢
          rcases ih.1 r hr hp with ⟨c, hcmem, hor⟩
          exact ⟨c, List.mem_append_left _ hcmem, hor⟩
    · intro c hc
      have hnext : (create_match_atomic db now a b).2.next_chat_id = db.next_chat_id + 1 := rfl
      rw [hnext]
      rcases List.mem_append.mp hc with hold | hnew
      · have := ih.2.1 c hold
        omega
      · rw [List.mem_singleton.mp hnew]
        show db.next_chat_id < db.next_chat_id + 1
        omega
    · intro c hc c2 hc2 heq
      rcases List.mem_append.mp hc with hold | hnew
      · rcases List.mem_append.mp hc2 with hold2 | hnew2
        · exact ih.2.2 c hold c2 hold2 heq
        · rw [List.mem_singleton.mp hnew2] at heq
          have hlt := ih.2.1 c hold
          have heq2 : c.chat_id = db.next_chat_id := heq
          exact absurd heq2 (by omega)
      · rcases List.mem_append.mp hc2 with hold2 | hnew2
        · rw [List.mem_singleton.mp hnew] at heq
          have hlt := ih.2.1 c2 hold2
          have heq2 : db.next_chat_id = c2.chat_id := heq
          exact absurd heq2.symm (by omega)
        · rw [List.mem_singleton.mp hnew, List.mem_singleton.mp hnew2]
  | endChat db now a b _ ih =>
    rcases hfind : db.active_chats.find? (fun c =>
        decide ((c.user_a = a ∧ c.user_b = b) ∨ (c.user_a = b ∧ c.user_b = a))) with _ | c0
    · rw [end_chat_atomic_notfound db now a b hfind]
      refine ⟨?_, ih.2.1, ih.2.2⟩
      intro r2 hr2 hp
      rcases List.mem_map.mp hr2 with ⟨r, hr, rfl⟩
      by_cases hc : r.user_id = a ∨ r.user_id = b
      · rw [if_pos hc] at hp
        exact absurd rfl hp
      · rw [if_neg hc] at hp ⊢
        exact ih.1 r hr hp
    · have hc0mem := List.mem_of_find?_eq_some hfind
      have hc0pair : (c0.user_a = a ∧ c0.user_b = b) ∨ (c0.user_a = b ∧ c0.user_b = a) := by
        simpa using List.find?_some hfind
      rw [end_chat_atomic_found db now a b c0 hfind]
      refine ⟨?_, ?_, ?_⟩
      · intro r2 hr2 hp
        rcases List.mem_map.mp hr2 with ⟨r, hr, rfl⟩
        by_cases hc : r.user_id = a ∨ r.user_id = b
        · rw [if_pos hc] at hp
          exact absurd rfl hp
        · rw [if_neg hc] at hp ⊢
          rcases ih.1 r hr hp with ⟨c, hcmem, hor⟩
          refine ⟨c, List.mem_filter.mpr ⟨hcmem, decide_eq_true (fun heq => ?_)⟩, hor⟩
          have hcc0 : c = c0 := ih.2.2 c hcmem c0 hc0mem heq
          rw [hcc0] at hor
          rcases hc0pair with ⟨h1, h2⟩ | ⟨h1, h2⟩ <;> rcases hor with h3 | h3
          · exact hc (Or.inl (h3.symm.trans h1))
          · exact hc (Or.inr (h3.symm.trans h2))
          · exact hc (Or.inr (h3.symm.trans h1))
          · exact hc (Or.inl (h3.symm.trans h2))
      · intro c hc
        exact ih.2.1 c (List.mem_of_mem_filter hc)
      · intro c hc c2 hc2 heq
        exact ih.2.2 c (List.mem_of_mem_filter hc) c2 (List.mem_of_mem_filter hc2) heq

/-- Counterexample to claim C3 as stated: `cexTraceDB` is reachable through
the exposed operations, yet user 1 has a null partner reference while an open
session still contains user 1 — the "iff" fails in the session-implies-partner
direction. -/
theorem partner_session_iff_cex :
    Reachable cexTraceDB ∧
    (∃ r ∈ cexTraceDB.users, r.user_id = 1 ∧ r.partner_id = none) ∧
    (∃ c ∈ cexTraceDB.active_chats, c.user_a = 1 ∨ c.user_b = 1) := by
  refine ⟨?_, by decide, by decide⟩
  exact Reachable.endChat _ 2 1 2 (Reachable.createMatch _ 1 1 2
    (Reachable.createMatch _ 0 1 2 (Reachable.createUser _ 2 "f"
      (Reachable.createUser _ 1 "m" Reachable.init))))

/-- Claim C3, amended: in every store reachable through the exposed
operations, a non-null partner reference implies an open session containing
that user; the converse direction of the claimed iff does not hold (see the
double-match/teardown trace). -/
theorem partner_implies_open_session (db : DB) (h : Reachable db) :
    ∀ r ∈ db.users, r.partner_id ≠ none →
      ∃ c ∈ db.active_chats, c.user_a = r.user_id ∨ c.user_b = r.user_id :=
  (reachable_inv db h).1

/-- Witness for C3 (amended): after pairing users 1 and 2 of a fresh store,
user 1's non-null partner reference is covered by an open session. -/
theorem partner_implies_open_session_witness :
    ∃ c ∈ (create_match_atomic
        (create_user (create_user DB.empty 1 "m") 2 "f") 0 1 2).2.active_chats,
      c.user_a = (1 : Int) ∨ c.user_b = (1 : Int) :=
  partner_implies_open_session _
    (Reachable.createMatch _ 0 1 2 (Reachable.createUser _ 2 "f"
      (Reachable.createUser _ 1 "m" Reachable.init)))
    ⟨1, "m", UserState.CHATTING, some 2, none⟩ (by decide) (by decide)

end Pairly
